import Mathlib

/-!
Verification development for the hyperliquid log exporter
(`hl_exporter.py`): a shallow embedding of its directory watcher
(`get_latest_file`), its rotating tailer loops (`stream_log_file` and the
per-family monitor loops), and its three line extractors
(`parse_log_line`, `parse_block_time_line`, `parse_consensus_log_line`),
together with theorems settling the specification claims about them.

Conventions of the embedding:
* A JSON document is a `JsonVal`; a raw log line is modelled by the
  outcome of `json.loads` on it: `none` stands for a line that is not
  valid JSON (`json.JSONDecodeError`), `some v` for a line whose parse is
  `v`.  Number values are modelled as integers (no claim depends on
  non-integral arithmetic); for `float(...)` conversions only success or
  failure is modelled, and the duration gauge stores the value whose
  conversion succeeded.
* Python operations that can raise (`[i]` indexing, `.get` on a
  non-dict, the `in` operator, hashing an unhashable key, `int`/`float`
  conversion) are modelled as `Option`-valued helpers, `none` standing
  for a raised exception; the `try/except` wrapping each extractor body
  turns a raise into "no further state change from this point on".
* Prometheus metric children are modelled as functions from label values
  to the last value set; every metric write is additionally recorded as
  an explicit `Obs` observation, so that claims about emitted
  observations can be stated.
-/

namespace HLExporter

/-- A JSON value, as produced by `json.loads`.  Objects are association
lists keyed by strings (JSON object keys are strings; the code under
scrutiny never constructs duplicate keys, so first-key lookup is
adequate). -/
inductive JsonVal where
  | null : JsonVal
  | bool (b : Bool) : JsonVal
  | num (n : Int) : JsonVal
  | str (s : String) : JsonVal
  | arr (xs : List JsonVal) : JsonVal
  | obj (fields : List (String × JsonVal)) : JsonVal

mutual

/-- Boolean equality of JSON values (Python `==` restricted to
JSON-shaped data; the `1 == True` coercion corner of Python equality is
not modelled, no log record mixes numbers and booleans). -/
def JsonVal.beq : JsonVal → JsonVal → Bool
  | .null, .null => true
  | .bool a, .bool b => a == b
  | .num a, .num b => a == b
  | .str a, .str b => a == b
  | .arr xs, .arr ys => JsonVal.beqList xs ys
  | .obj fs, .obj gs => JsonVal.beqFields fs gs
  | _, _ => false
termination_by structural a => a

/-- Elementwise equality of JSON arrays. -/
def JsonVal.beqList : List JsonVal → List JsonVal → Bool
  | [], [] => true
  | x :: xs, y :: ys => JsonVal.beq x y && JsonVal.beqList xs ys
  | _, _ => false
termination_by structural a => a

/-- Elementwise equality of JSON object field lists. -/
def JsonVal.beqFields : List (String × JsonVal) → List (String × JsonVal) → Bool
  | [], [] => true
  | (k, v) :: fs, (l, w) :: gs => k == l && JsonVal.beq v w && JsonVal.beqFields fs gs
  | _, _ => false
termination_by structural a => a

end

mutual

theorem JsonVal.beq_iff : (a b : JsonVal) → (JsonVal.beq a b = true ↔ a = b)
  | .null, b => by cases b <;> simp [JsonVal.beq]
  | .bool x, b => by cases b <;> simp [JsonVal.beq]
  | .num x, b => by cases b <;> simp [JsonVal.beq]
  | .str x, b => by cases b <;> simp [JsonVal.beq]
  | .arr xs, b => by
      cases b <;> simp [JsonVal.beq]
      exact JsonVal.beqList_iff xs _
  | .obj fs, b => by
      cases b <;> simp [JsonVal.beq]
      exact JsonVal.beqFields_iff fs _
termination_by structural a => a

theorem JsonVal.beqList_iff : (xs ys : List JsonVal) → (JsonVal.beqList xs ys = true ↔ xs = ys)
  | [], ys => by cases ys <;> simp [JsonVal.beqList]
  | x :: xs, ys => by
      cases ys with
      | nil => simp [JsonVal.beqList]
      | cons y ys =>
          simp [JsonVal.beqList, JsonVal.beq_iff x y, JsonVal.beqList_iff xs ys]
termination_by structural a => a

theorem JsonVal.beqFields_iff : (fs gs : List (String × JsonVal)) →
    (JsonVal.beqFields fs gs = true ↔ fs = gs)
  | [], gs => by cases gs <;> simp [JsonVal.beqFields]
  | (k, v) :: fs, gs => by
      cases gs with
      | nil => simp [JsonVal.beqFields]
      | cons g gs =>
          obtain ⟨l, w⟩ := g
          simp [JsonVal.beqFields, JsonVal.beq_iff v w, JsonVal.beqFields_iff fs gs]
termination_by structural a => a

end

instance : DecidableEq JsonVal := fun a b => decidable_of_iff _ (JsonVal.beq_iff a b)

/-- Python truthiness (`if x:`) of a JSON-shaped value. -/
def truthy : JsonVal → Bool
  | .null => false
  | .bool b => b
  | .num n => n != 0
  | .str s => s != ""
  | .arr xs => !xs.isEmpty
  | .obj fs => !fs.isEmpty

/-- `d.get(k)` on a JSON object's field list: the value of the first
field named `k`, if any. -/
def objGet (fields : List (String × JsonVal)) (k : String) : Option JsonVal :=
  (fields.find? (fun p => p.1 == k)).map (·.2)

/-- Python `x[i]` for a non-negative index: element access for a JSON
array, single-character access for a string; on anything else (and out
of range) the subscript raises, modelled as `none`. -/
def pyIndex (v : JsonVal) (i : Nat) : Option JsonVal :=
  match v with
  | .arr xs => xs.get? i
  | .str s => (s.toList.get? i).map fun c => .str (String.mk [c])
  | _ => none

/-- Whether a JSON value is hashable in Python (usable as a `dict`/`set`
key): lists and dicts are not, everything else here is. -/
def hashable : JsonVal → Bool
  | .arr _ => false
  | .obj _ => false
  | _ => true

/-- Python `int(x)` on a JSON value: `none` models a raised
`TypeError`/`ValueError`.  String parsing accepts an optional sign and
decimal digits, matching `int()` on the plain literals that occur in the
logs. -/
def pyInt : JsonVal → Option Int
  | .num n => some n
  | .bool b => some (if b then 1 else 0)
  | .str s => s.toInt?
  | _ => none

/-- Whether Python `float(x)` succeeds on a JSON value.  String parsing
accepts an optional sign, digits and at most one decimal point (plain
float literals; exponent forms do not occur in the logs). -/
def floatStrOk (s : String) : Bool :=
  let l := match s.toList with
    | '-' :: rest => rest
    | '+' :: rest => rest
    | l => l
  if l.contains '.' then
    let a := l.takeWhile (· ≠ '.')
    let b := (l.dropWhile (· ≠ '.')).tail
    !b.contains '.' && (!a.isEmpty || !b.isEmpty) && a.all Char.isDigit && b.all Char.isDigit
  else !l.isEmpty && l.all Char.isDigit

/-- Whether Python `float(x)` succeeds on a JSON value (`false` models a
raised `TypeError`/`ValueError`). -/
def pyFloatOk : JsonVal → Bool
  | .num _ => true
  | .bool _ => true
  | .str s => floatStrOk s
  | _ => false

/-- Substring test used by Python's `in` on strings. -/
def strContains (hay needle : String) : Bool :=
  decide (needle.toList <:+: hay.toList)

/-- Python `x in y` for JSON-shaped values: membership for arrays, key
membership for dicts (an unhashable probe raises), substring test for
strings (a non-string probe raises); on numbers, booleans and `None` the
operator raises.  `none` models the raise. -/
def pyIn (x y : JsonVal) : Option Bool :=
  match y with
  | .arr ys => some (ys.contains x)
  | .obj fs =>
      if hashable x then
        some (match x with
          | .str s => fs.any (fun p => p.1 == s)
          | _ => false)
      else none
  | .str t =>
      match x with
      | .str s => some (strContains t s)
      | _ => none
  | _ => none

/-! ### Metric observations

One `Obs` per metric write performed by an extractor, in program
order. -/

/-- A single write to the metrics sink. -/
inductive Obs where
  | proposerInc (proposer : JsonVal) : Obs
  | blockHeightSet (v : Int) : Obs
  | applyDurationSet (v : JsonVal) : Obs
  | jailedSet (validator : JsonVal) (name : JsonVal) (value : Nat) : Obs
deriving DecidableEq

/-! ### Directory watcher: `get_latest_file` -/

/-- One regular file met by `os.walk`: its path and the result of
`os.path.getmtime` on it (`none` models a raised per-file stat error,
the `except` branch of the loop body). -/
structure FSFile where
  path : String
  mtime : Option Nat
deriving DecidableEq

/-- The root directory handed to `get_latest_file`.  `inaccessible`
models a root on which `os.walk`'s `scandir` raises (missing or
unreadable directory); with the default `onerror=None` such a walk
yields no entries at all.  `ok files` models an accessible tree whose
walk enumerates `files` in walk order. -/
inductive RootDir where
  | inaccessible : RootDir
  | ok (files : List FSFile) : RootDir
deriving DecidableEq

/-- The regular files yielded by `os.walk` over a root directory. -/
def walkFiles : RootDir → List FSFile
  | .inaccessible => []
  | .ok fs => fs

/-- `get_latest_file(directory)`: fold over the walked files keeping the
first file whose modification time strictly exceeds every earlier one,
starting from `latest_file = None`, `latest_time = 0`; a file whose stat
raises is skipped. -/
def get_latest_file (d : RootDir) : Option String :=
  (walkFiles d |>.foldl
    (fun acc f =>
      match f.mtime with
      | none => acc
      | some t => if t > acc.2 then (some f.path, t) else acc)
    ((none : Option String), (0 : Nat))).1

/-! ### Proposer extractor: `parse_log_line` -/

/-- The label children of the `proposer_count` counter: for each label
value, the current count. -/
def ProposerCounter : Type := JsonVal → Nat

/-- `parse_log_line(line)`: decode the line, read
`log_entry.get("abci_block", {}).get("proposer", None)`, and when the
result is truthy increment the counter child labeled with it.  A decode
error, a non-dict at either `.get`, or a falsy proposer leaves every
counter unchanged and emits nothing; every exception is caught inside
the function. -/
def parse_log_line (c : ProposerCounter) (line : Option JsonVal) :
    ProposerCounter × List Obs :=
  match line with
  | none => (c, [])
  | some v =>
    match v with
    | .obj fs =>
      match (objGet fs "abci_block").getD (.obj []) with
      | .obj fs2 =>
        let proposer := (objGet fs2 "proposer").getD .null
        if truthy proposer then
          (fun q => if q = proposer then c q + 1 else c q, [Obs.proposerInc proposer])
        else (c, [])
      | _ => (c, [])
    | _ => (c, [])

/-- Fold a sequence of lines through `parse_log_line`, keeping the
counter state. -/
def processProposerLines (c : ProposerCounter) (lines : List (Option JsonVal)) :
    ProposerCounter :=
  lines.foldl (fun acc l => (parse_log_line acc l).1) c

/-- Whether a line is a valid JSON record whose nested
`abci_block.proposer` field holds the truthy identifier `P` (exactly the
lines on which `parse_log_line` increments the counter child `P`). -/
def namesProposer (P : JsonVal) : Option JsonVal → Bool
  | some (.obj fs) =>
      (match (objGet fs "abci_block").getD (.obj []) with
        | .obj fs2 => (objGet fs2 "proposer").getD .null == P && truthy P
        | _ => false)
  | _ => false

/-! ### Block-time extractor: `parse_block_time_line` -/

/-- The two gauges written by the block-time extractor: the last block
height set and the last apply-duration value set (`none` = never
set). -/
structure BlockMetrics where
  height : Option Int
  apply_duration : Option JsonVal
deriving DecidableEq

/-- Second half of `parse_block_time_line`: `if apply_duration is not
None: hl_apply_duration_gauge.set(float(apply_duration))`.  A failing
`float` conversion raises out to the handler, keeping the state reached
so far (`m`, `obs`). -/
def setApplyDuration (m : BlockMetrics) (obs : List Obs) (ad : JsonVal) :
    BlockMetrics × List Obs :=
  match ad with
  | .null => (m, obs)
  | a =>
      if pyFloatOk a then
        ({ m with apply_duration := some a }, obs ++ [Obs.applyDurationSet a])
      else (m, obs)

/-- `parse_block_time_line(line)`: decode the line, read `height` and
`apply_duration` via `.get`, set the height gauge first (when the field
is present and `int()` succeeds) and the apply-duration gauge second
(when present and `float()` succeeds); any raise is caught after the
writes already performed. -/
def parse_block_time_line (m : BlockMetrics) (line : Option JsonVal) :
    BlockMetrics × List Obs :=
  match line with
  | none => (m, [])
  | some v =>
    match v with
    | .obj fs =>
      let block_height := (objGet fs "height").getD .null
      let apply_duration := (objGet fs "apply_duration").getD .null
      match block_height with
      | .null => setApplyDuration m [] apply_duration
      | bh =>
        match pyInt bh with
        | none => (m, [])
        | some h =>
            setApplyDuration { m with height := some h } [Obs.blockHeightSet h] apply_duration
    | _ => (m, [])

/-! ### Consensus extractor: `parse_consensus_log_line` -/

/-- One entry of the validator resolver mapping
(`validator_mapping[short] = {"full_address": ..., "name": ...}`). -/
structure ValidatorRecord where
  full_address : String
  name : String
deriving DecidableEq

/-- The resolver cache: short address to record, as an association
list. -/
def ValidatorMapping : Type := List (String × ValidatorRecord)

/-- `validator_mapping.get(short)`. -/
def vmLookup (vm : ValidatorMapping) (short : String) : Option ValidatorRecord :=
  ((vm.find? (fun p => p.1 == short)).map (·.2))

/-- The jailed-status gauge children, keyed by the (`validator`, `name`)
label pair; `none` = that child was never set. -/
def JailedGauge : Type := JsonVal × JsonVal → Option Nat

/-- Set one child of the jailed-status gauge. -/
def setGauge (g : JailedGauge) (k : JsonVal × JsonVal) (v : Nat) : JailedGauge :=
  fun k2 => if k2 = k then some v else g k2

/-- Build `all_validators` from the decoded `round_to_stakes` value: for
each round entry take element `[1]` (the validator/stake list), for each
of its entries take element `[0]` and add it to the set.  Python's
running set is modelled as a list deduplicated in first-insertion order
(the claims do not depend on set iteration order).  A raise while
building (non-indexable entry, non-iterable collection, unhashable
element) aborts the whole line before any gauge write: `none`. -/
def addRoundValidators (acc : List JsonVal) (entries : List JsonVal) :
    Option (List JsonVal) :=
  match entries with
  | [] => some acc
  | e :: rest =>
      match pyIndex e 0 with
      | none => none
      | some v =>
          if hashable v then
            addRoundValidators (if acc.contains v then acc else acc ++ [v]) rest
          else none

/-- Iterate over the round entries of `round_to_stakes`. -/
def buildAllValidators (acc : List JsonVal) (rounds : List JsonVal) :
    Option (List JsonVal) :=
  match rounds with
  | [] => some acc
  | r :: rest =>
      match pyIndex r 1 with
      | none => none
      | some vl =>
          match vl with
          | .arr entries =>
              match addRoundValidators acc entries with
              | none => none
              | some acc2 => buildAllValidators acc2 rest
          | _ => none

/-- The per-validator update loop of `parse_consensus_log_line`: resolve
the short address through the mapping (falling back to the address
itself and the name `"Unknown"` on a miss), test membership in
`jailed_validators`, and set the gauge child.  A raise mid-loop keeps
the writes already performed. -/
def jailedLoop (vm : ValidatorMapping) (jailedJson : JsonVal) (g : JailedGauge)
    (obs : List Obs) : List JsonVal → JailedGauge × List Obs
  | [] => (g, obs)
  | v :: rest =>
      let fullName : JsonVal × JsonVal :=
        match v with
        | .str s =>
            match vmLookup vm s with
            | some r => (.str r.full_address, .str r.name)
            | none => (v, .str "Unknown")
        | _ => (v, .str "Unknown")
      match pyIn v jailedJson with
      | none => (g, obs)
      | some b =>
          let bit := if b then 1 else 0
          jailedLoop vm jailedJson (setGauge g fullName bit)
            (obs ++ [Obs.jailedSet fullName.1 fullName.2 bit]) rest

/-- `parse_consensus_log_line(line)`: decode the line, take
`data[1][1]`, read `jailed_validators` (default `[]`) and
`execution_state.round_to_stakes` (defaults `{}` / `[]`), build
`all_validators`, and run the per-validator update loop; every raise is
caught, keeping whatever writes already happened.  Iteration over
`round_to_stakes` and over each round's validator list is modelled for
JSON arrays, the only shape these collections take in the logs;
non-iterable shapes raise before any write, as in the source. -/
def parse_consensus_log_line (vm : ValidatorMapping) (g : JailedGauge)
    (line : Option JsonVal) : JailedGauge × List Obs :=
  match line with
  | none => (g, [])
  | some data =>
    match pyIndex data 1 with
    | none => (g, [])
    | some d1 =>
      match pyIndex d1 1 with
      | none => (g, [])
      | some d11 =>
        match d11 with
        | .obj fs =>
          let jailedJson := (objGet fs "jailed_validators").getD (.arr [])
          match (objGet fs "execution_state").getD (.obj []) with
          | .obj efs =>
            let rts := (objGet efs "round_to_stakes").getD (.arr [])
            match rts with
            | .arr rounds =>
                match buildAllValidators [] rounds with
                | none => (g, [])
                | some avs => jailedLoop vm jailedJson g [] avs
            | _ => (g, [])
          | _ => (g, [])
        | _ => (g, [])

/-! ### Rotating tailer: `stream_log_file` and the monitor loops

`stream_log_file` (and its verbatim copies `stream_block_time_file`,
`stream_consensus_log_file`) drains the open file to end-of-file, then
repeatedly: runs `get_latest_file` over the log directory, returns that
result if it differs from the open path, otherwise sleeps one second
(during which the writer may append lines) and reads on.  The
environment's part of one such idle check is an `IdleEv`: the state of
the log directory at the check, and the lines appended during the sleep
that follows.  The tailer is line-content-agnostic, so the line type is
a parameter `α`; for metric claims it is instantiated with
`Option JsonVal` (the decode outcome of each line). -/

/-- One end-of-file idle check of the streaming loop, as seen from the
environment: `step dir appended` is a check where the directory tree is
`dir` (polled with `get_latest_file`) and `appended` is appended to the
open file during the following one-second sleep; `fail` is a check at
which the read raises an unexpected I/O error. -/
inductive IdleEv (α : Type) where
  | step (dir : RootDir) (appended : List α) : IdleEv α
  | fail : IdleEv α
deriving DecidableEq

/-- How one call to `stream_log_file` ends: the environment script ran
out while still streaming (`ended`), the function returned the
differing watcher result (`returned r`, with `r = none` when the
watcher found no file at all), or an unexpected exception escaped to
the monitor's `except` handler (`raised`). -/
inductive Outcome where
  | ended : Outcome
  | returned (r : Option String) : Outcome
  | raised : Outcome
deriving DecidableEq

/-- The inner loop of `stream_log_file`, open on `path` with the file
content `content` and the read cursor at `cursor`.  All lines from the
cursor to end-of-file are delivered (in on-disk order) before the next
idle check consumes the next event.  Returns the delivered lines and
the outcome. -/
def streamRun {α : Type} (path : String) (content : List α) (cursor : Nat) :
    List (IdleEv α) → List α × Outcome
  | [] => (content.drop cursor, .ended)
  | .fail :: _ => (content.drop cursor, .raised)
  | .step dir app :: rest =>
      let latest := get_latest_file dir
      if latest = some path then
        let r := streamRun path (content ++ app) content.length rest
        (content.drop cursor ++ r.1, r.2)
      else (content.drop cursor, .returned latest)

/-- `stream_log_file(file_path, logs_dir, from_start)`: open the file,
`seek` to end-of-file unless `from_start` (so the cursor starts at the
current length, skipping every line already present), then stream.
`content` is the file's content at open time. -/
def stream_log_file {α : Type} (path : String) (content : List α) (from_start : Bool)
    (events : List (IdleEv α)) : List α × Outcome :=
  streamRun path content (if from_start then 0 else content.length) events

/-- The lines a streaming call delivers beyond its opening cursor: the
appended batches of every idle check before the first one whose watcher
result differs from the open path (or before a raise). -/
def deliveredOfEvents {α : Type} (path : String) : List (IdleEv α) → List α
  | [] => []
  | .fail :: _ => []
  | .step dir app :: rest =>
      if get_latest_file dir = some path then app ++ deliveredOfEvents path rest
      else []

/-- The outcome of a streaming call on `path`, read off its event
script. -/
def outcomeOfEvents {α : Type} (path : String) : List (IdleEv α) → Outcome
  | [] => .ended
  | .fail :: _ => .raised
  | .step dir _ :: rest =>
      if get_latest_file dir = some path then outcomeOfEvents path rest
      else .returned (get_latest_file dir)

/-- The environment of one monitor-loop iteration that streams a file:
the content the file has when opened, and the idle-check script of the
streaming call. -/
structure Session (α : Type) where
  content : List α
  events : List (IdleEv α)
deriving DecidableEq

/-- What one monitor-loop iteration did: which path it streamed, with
which `from_start`, which lines it handed to the extractor, and how the
call ended. -/
structure SessionLog (α : Type) where
  path : String
  from_start : Bool
  delivered : List α
  outcome : Outcome
deriving DecidableEq

/-- The `while True` body shared verbatim by `proposal_count_monitor`
and `block_time_monitor`: `latest_file` is computed once before the
loop; each iteration streams it with `from_start = not first_run` when
it is set, and otherwise only logs and sleeps — `get_latest_file` is
never called again from this loop, so a `none` start is never
re-located.  After a call returns a truthy new file the loop switches
to it and clears `first_run`; after a falsy return or a caught
exception both variables are kept. -/
def tail_monitor_loop {α : Type} (latest : Option String) (first_run : Bool) :
    List (Session α) → List (SessionLog α)
  | [] => []
  | s :: rest =>
    match latest with
    | none => tail_monitor_loop none first_run rest
    | some p =>
      let r := stream_log_file p s.content (!first_run) s.events
      let lg : SessionLog α := ⟨p, !first_run, r.1, r.2⟩
      match r.2 with
      | .ended => [lg]
      | .raised => lg :: tail_monitor_loop (some p) first_run rest
      | .returned none => lg :: tail_monitor_loop (some p) first_run rest
      | .returned (some b) => lg :: tail_monitor_loop (some b) false rest

/-- `proposal_count_monitor()`: find the latest file of the replica-cmds
directory once, then run the shared loop body. -/
def proposal_count_monitor {α : Type} (d0 : RootDir) (sessions : List (Session α)) :
    List (SessionLog α) :=
  tail_monitor_loop (get_latest_file d0) true sessions

/-- `block_time_monitor()`: identical control flow over the block-times
directory. -/
def block_time_monitor {α : Type} (d0 : RootDir) (sessions : List (Session α)) :
    List (SessionLog α) :=
  tail_monitor_loop (get_latest_file d0) true sessions

/-- The environment of one `consensus_log_file_monitor` loop iteration:
the state of the consensus directory at the `get_latest_file` call that
starts the iteration, and — when a file is found — its content at open
time and the idle-check script. -/
structure CSession (α : Type) where
  dir : RootDir
  content : List α
  events : List (IdleEv α)
deriving DecidableEq

/-- The `while True` body of `consensus_log_file_monitor`: unlike the
other two monitors it calls `get_latest_file` at the top of every
iteration, so a directory that is empty at one check is re-polled at
the next (`latest_file = new_file` inside the body is overwritten by
that fresh call and is kept only through `first_run`). -/
def consensus_log_file_monitor {α : Type} (first_run : Bool) :
    List (CSession α) → List (SessionLog α)
  | [] => []
  | s :: rest =>
    match get_latest_file s.dir with
    | none => consensus_log_file_monitor first_run rest
    | some p =>
      let r := stream_log_file p s.content (!first_run) s.events
      let lg : SessionLog α := ⟨p, !first_run, r.1, r.2⟩
      match r.2 with
      | .ended => [lg]
      | .raised => lg :: consensus_log_file_monitor first_run rest
      | .returned none => lg :: consensus_log_file_monitor first_run rest
      | .returned (some _) => lg :: consensus_log_file_monitor false rest

/-- The `time.sleep` at the bottom of `proposal_count_monitor`'s loop,
in seconds. -/
def proposal_poll_seconds : Nat := 10

/-- The `time.sleep` at the bottom of `block_time_monitor`'s loop, in
seconds. -/
def block_time_poll_seconds : Nat := 5

/-- The `time.sleep` at the bottom of `consensus_log_file_monitor`'s
loop, in seconds. -/
def consensus_poll_seconds : Nat := 10

/-- The `time.sleep` inside the streaming loops' idle check, in
seconds. -/
def idle_sleep_seconds : Nat := 1

/-! ### Characterization of one streaming call -/

/-- A streaming call on `path` delivers exactly the open file's content
from the cursor onward, followed by the batches appended before the
first differing watcher result (or raise), and ends as the event script
dictates. -/
theorem streamRun_eq {α : Type} (path : String) (evs : List (IdleEv α)) :
    ∀ (content : List α) (cursor : Nat),
      streamRun path content cursor evs =
        (content.drop cursor ++ deliveredOfEvents path evs, outcomeOfEvents path evs) := by
  induction evs with
  | nil =>
      intro content cursor
      simp [streamRun, deliveredOfEvents, outcomeOfEvents]
  | cons e rest ih =>
      intro content cursor
      cases e with
      | fail => simp [streamRun, deliveredOfEvents, outcomeOfEvents]
      | step dir app =>
          by_cases hd : get_latest_file dir = some path
          · simp only [streamRun, deliveredOfEvents, outcomeOfEvents, hd, if_pos]
            rw [ih]
            simp [List.drop_left]
          · simp [streamRun, deliveredOfEvents, outcomeOfEvents, hd]

theorem stream_log_file_from_start {α : Type} (path : String) (content : List α)
    (evs : List (IdleEv α)) :
    stream_log_file path content true evs =
      (content ++ deliveredOfEvents path evs, outcomeOfEvents path evs) := by
  simp [stream_log_file, streamRun_eq]

theorem stream_log_file_from_end {α : Type} (path : String) (content : List α)
    (evs : List (IdleEv α)) :
    stream_log_file path content false evs =
      (deliveredOfEvents path evs, outcomeOfEvents path evs) := by
  simp [stream_log_file, streamRun_eq]

/-- Unfolding one iteration of the shared monitor loop body when a
latest file is at hand. -/
theorem tail_monitor_loop_cons {α : Type} (p : String) (fr : Bool) (s : Session α)
    (rest : List (Session α)) :
    tail_monitor_loop (some p) fr (s :: rest) =
      ⟨p, !fr, (stream_log_file p s.content (!fr) s.events).1, outcomeOfEvents p s.events⟩ ::
        (match outcomeOfEvents p s.events with
          | .ended => []
          | .raised => tail_monitor_loop (some p) fr rest
          | .returned none => tail_monitor_loop (some p) fr rest
          | .returned (some b) => tail_monitor_loop (some b) false rest) := by
  have h2 : (stream_log_file p s.content (!fr) s.events).2 = outcomeOfEvents p s.events := by
    simp [stream_log_file, streamRun_eq]
  simp only [tail_monitor_loop, h2]
  rcases houtcome : outcomeOfEvents p s.events with _ | r | _
  · rfl
  · cases r <;> rfl
  · rfl

/-- Every line delivered beyond the opening cursor stems from an
appended batch of the event script. -/
theorem deliveredOfEvents_mem {α : Type} (path : String) (evs : List (IdleEv α)) :
    ∀ l ∈ deliveredOfEvents path evs, ∃ dir app, IdleEv.step dir app ∈ evs ∧ l ∈ app := by
  induction evs with
  | nil => simp [deliveredOfEvents]
  | cons e rest ih =>
      cases e with
      | fail => simp [deliveredOfEvents]
      | step dir app =>
          intro l hl
          by_cases hd : get_latest_file dir = some path
          · rw [deliveredOfEvents, if_pos hd] at hl
            rcases List.mem_append.mp hl with hin | hin
            · exact ⟨dir, app, List.mem_cons_self _ _, hin⟩
            · obtain ⟨d2, a2, hmem, hla⟩ := ih l hin
              exact ⟨d2, a2, List.mem_cons_of_mem _ hmem, hla⟩
          · rw [deliveredOfEvents, if_neg hd] at hl
            simp at hl

/-- C1: on a fresh pipeline start the first streamed file is opened with
the cursor at end-of-file: a call with `from_start = False` delivers
exactly the lines appended after the stream was opened (so none of the
lines already in the file, and no metric observation for them), every
delivered line comes from a post-open append, and the monitor's first
iteration (where `first_run` is still `True`) indeed streams with
`from_start = False`, delivering only post-open appends. -/
theorem fresh_start_no_replay {α : Type} (p : String) (init : List α)
    (evs : List (IdleEv α)) (s : Session α) (rest : List (Session α)) :
    (stream_log_file p init false evs).1 = deliveredOfEvents p evs
  ∧ (∀ l ∈ deliveredOfEvents p evs, ∃ dir app, IdleEv.step dir app ∈ evs ∧ l ∈ app)
  ∧ (tail_monitor_loop (some p) true (s :: rest)).head? =
      some ⟨p, false, deliveredOfEvents p s.events, outcomeOfEvents p s.events⟩ := by
  refine ⟨by rw [stream_log_file_from_end], deliveredOfEvents_mem p evs, ?_⟩
  rw [tail_monitor_loop_cons]
  simp [stream_log_file_from_end]

/-- Witness for `fresh_start_no_replay` at a concrete run: one
pre-existing line, one appended line; the appended line is traced back
to its append event. -/
theorem fresh_start_no_replay_witness :
    ∃ dir app,
      IdleEv.step dir app ∈ [IdleEv.step (RootDir.ok [⟨"A", some 3⟩]) ["x"]] ∧ "x" ∈ app :=
  (fresh_start_no_replay "A" ["old1"] [IdleEv.step (RootDir.ok [⟨"A", some 3⟩]) ["x"]]
      (⟨[], []⟩ : Session String) []).2.1 "x" (by decide)

/-- C2: when a streaming call ends because the watcher named a different
file `b`, the monitor's next iteration opens `b` with
`from_start = True`, so it delivers all of `b`'s content at open time
followed by the lines appended afterwards — a full read from the
beginning of the rotated-to file. -/
theorem rotation_reads_new_file_from_start {α : Type} (p b : String) (fr : Bool)
    (s s2 : Session α) (rest : List (Session α))
    (h : outcomeOfEvents p s.events = Outcome.returned (some b)) :
    stream_log_file b s2.content true s2.events =
      (s2.content ++ deliveredOfEvents b s2.events, outcomeOfEvents b s2.events)
  ∧ (tail_monitor_loop (some p) fr (s :: s2 :: rest))[1]? =
      some ⟨b, true, s2.content ++ deliveredOfEvents b s2.events,
        outcomeOfEvents b s2.events⟩ := by
  refine ⟨stream_log_file_from_start b s2.content s2.events, ?_⟩
  rw [tail_monitor_loop_cons, h]
  simp only [List.getElem?_cons_succ, List.getElem?_cons_zero]
  rw [tail_monitor_loop_cons]
  simp [stream_log_file_from_start]

/-- Witness for `rotation_reads_new_file_from_start`: file `A` rotates
to `B`, which holds two lines at detection time and receives one more
afterwards; all three are delivered in order. -/
theorem rotation_reads_new_file_from_start_witness :
    (tail_monitor_loop (some "A") true
        ([⟨["a1"], [IdleEv.step (RootDir.ok [⟨"B", some 9⟩]) []]⟩,
          ⟨["b1", "b2"], [IdleEv.step (RootDir.ok [⟨"B", some 9⟩]) ["b3"]]⟩] :
          List (Session String)))[1]? =
      some ⟨"B", true,
        ["b1", "b2"] ++ deliveredOfEvents "B"
          [IdleEv.step (RootDir.ok [⟨"B", some 9⟩]) ["b3"]],
        outcomeOfEvents "B" [IdleEv.step (RootDir.ok [⟨"B", some 9⟩]) ["b3"]]⟩ :=
  (rotation_reads_new_file_from_start "A" "B" true
      (⟨["a1"], [IdleEv.step (RootDir.ok [⟨"B", some 9⟩]) []]⟩ : Session String)
      ⟨["b1", "b2"], [IdleEv.step (RootDir.ok [⟨"B", some 9⟩]) ["b3"]]⟩ []
      (by decide)).2

/-- C3 (code bug): `proposal_count_monitor` and `block_time_monitor`
compute `latest_file` once before their loop and never call
`get_latest_file` again from the loop itself, so a family that starts
with no file stays in the no-file branch forever, no matter what
appears in the directory later — contradicting the loops' own log
message ("Retrying in 10 seconds...") and the comment "before checking
for the latest file again".  `consensus_log_file_monitor`, by
contrast, re-polls at the top of every iteration and starts streaming
as soon as the watcher finds a file; the three loops' poll sleeps are
10s, 5s and 10s. -/
theorem locating_never_repolled :
    (∀ (fr : Bool) (ss : List (Session String)), tail_monitor_loop none fr ss = [])
  ∧ (∀ ss : List (Session String), proposal_count_monitor (RootDir.ok []) ss = [])
  ∧ (∀ ss : List (Session String), block_time_monitor RootDir.inaccessible ss = [])
  ∧ (∀ (p : String) (c : List String) (evs : List (IdleEv String))
       (rest : List (CSession String)) (fr : Bool),
      (consensus_log_file_monitor fr
          (⟨RootDir.ok [], [], []⟩ :: ⟨RootDir.ok [⟨p, some 1⟩], c, evs⟩ :: rest)).head? =
        some ⟨p, !fr, (stream_log_file p c (!fr) evs).1, outcomeOfEvents p evs⟩)
  ∧ proposal_poll_seconds = 10 ∧ block_time_poll_seconds = 5 ∧ consensus_poll_seconds = 10 := by
  have hnone : ∀ (fr : Bool) (ss : List (Session String)), tail_monitor_loop none fr ss = [] := by
    intro fr ss
    induction ss with
    | nil => rfl
    | cons s rest ih => rw [tail_monitor_loop, ih]
  refine ⟨hnone, fun ss => hnone true ss, fun ss => hnone true ss, ?_, rfl, rfl, rfl⟩
  intro p c evs rest fr
  have hp : get_latest_file (RootDir.ok [⟨p, some 1⟩]) = some p := rfl
  have h2 : (stream_log_file p c (!fr) evs).2 = outcomeOfEvents p evs := by
    simp [stream_log_file, streamRun_eq]
  rw [consensus_log_file_monitor]
  rw [show get_latest_file (RootDir.ok ([] : List FSFile)) = none from rfl]
  rw [consensus_log_file_monitor]
  simp only [hp, h2]
  rcases houtcome : outcomeOfEvents p evs with _ | r | _
  · rfl
  · cases r <;> rfl
  · rfl

/-- C4, counterexample: after file `A` rotates to `B` and an unexpected
error interrupts the streaming of `B` beyond its first line, the
monitor re-opens the same file `B` with `from_start = True` again and
hands the already-delivered line `l1` to the extractor a second time —
the cursor of the unchanged file identity `B` went back to 0, and a
delivered line is re-delivered after the error. -/
theorem tail_cursor_counterexample :
    (tail_monitor_loop (some "A") true
        ([⟨[], [IdleEv.step (RootDir.ok [⟨"B", some 2⟩]) []]⟩,
          ⟨["l1"], [IdleEv.fail]⟩,
          ⟨["l1"], []⟩] : List (Session String))).map
        (fun lg => (lg.path, lg.from_start, lg.delivered)) =
      [("A", false, []), ("B", true, ["l1"]), ("B", true, ["l1"])] := by decide

/-- C4, amended: within one streaming call the cursor only moves
forward — the delivered lines are exactly the open file's content from
the opening cursor onward followed by the batches appended later, each
file position read at most once.  After an unexpected error, however,
the monitor does not re-locate: it keeps the remembered path and the
`first_run` flag unchanged and retries the same file after the backoff
sleep, so a non-first file is re-opened from the beginning and lines
already handed to the extractor are delivered again (as the
counterexample shows). -/
theorem tail_cursor_amended {α : Type} (p : String) (content : List α)
    (cursor : Nat) (evs : List (IdleEv α)) (fr : Bool) (s : Session α)
    (rest : List (Session α)) (h : outcomeOfEvents p s.events = Outcome.raised) :
    (streamRun p content cursor evs).1 = content.drop cursor ++ deliveredOfEvents p evs
  ∧ tail_monitor_loop (some p) fr (s :: rest) =
      ⟨p, !fr, (stream_log_file p s.content (!fr) s.events).1, Outcome.raised⟩ ::
        tail_monitor_loop (some p) fr rest := by
  refine ⟨by rw [streamRun_eq], ?_⟩
  rw [tail_monitor_loop_cons, h]

/-- Witness for `tail_cursor_amended` at the counterexample's failing
session: the erroring iteration keeps path and flags for the retry. -/
theorem tail_cursor_amended_witness :
    (streamRun "B" ["l1"] 0 [(IdleEv.fail : IdleEv String)]).1 =
        (["l1"] : List String).drop 0 ++ deliveredOfEvents "B" [(IdleEv.fail : IdleEv String)]
  ∧ tail_monitor_loop (some "B") false
        ([⟨["l1"], [IdleEv.fail]⟩, ⟨["l1"], []⟩] : List (Session String)) =
      ⟨"B", true, (stream_log_file "B" ["l1"] true [(IdleEv.fail : IdleEv String)]).1,
          Outcome.raised⟩ ::
        tail_monitor_loop (some "B") false ([⟨["l1"], []⟩] : List (Session String)) :=
  tail_cursor_amended "B" ["l1"] 0 [IdleEv.fail] false ⟨["l1"], [IdleEv.fail]⟩
    [⟨["l1"], []⟩] (by decide)

/-! ### Claims about `get_latest_file` -/

/-- The folding step of `get_latest_file`. -/
def latestStep (acc : Option String × Nat) (f : FSFile) : Option String × Nat :=
  match f.mtime with
  | none => acc
  | some t => if t > acc.2 then (some f.path, t) else acc

theorem get_latest_file_eq_foldl (d : RootDir) :
    get_latest_file d = ((walkFiles d).foldl latestStep (none, 0)).1 := by
  rfl

/-- Invariant of the `get_latest_file` fold: either nothing beat the
accumulator (and every stattable file is at most as recent), or the
result names a file from the list whose time strictly beats the
accumulator and bounds every stattable file. -/
theorem latestStep_foldl_spec (l : List FSFile) :
    ∀ (a0 : Option String) (t0 : Nat),
      (l.foldl latestStep (a0, t0) = (a0, t0) ∧
        ∀ f ∈ l, ∀ u, f.mtime = some u → u ≤ t0)
    ∨ (∃ p t, l.foldl latestStep (a0, t0) = (some p, t) ∧ t0 < t ∧
        FSFile.mk p (some t) ∈ l ∧ ∀ f ∈ l, ∀ u, f.mtime = some u → u ≤ t) := by
  induction l with
  | nil => intro a0 t0; left; simp
  | cons f l ih =>
      intro a0 t0
      rcases hm : f.mtime with _ | u
      · rcases ih a0 t0 with ⟨heq, hb⟩ | ⟨p, t, heq, hlt, hmem, hb⟩
        · left
          refine ⟨by simp [latestStep, hm, heq], ?_⟩
          intro g hg v hv
          rcases List.mem_cons.mp hg with hg | hg
          · rw [hg] at hv; rw [hv] at hm; cases hm
          · exact hb g hg v hv
        · right
          refine ⟨p, t, by simp [latestStep, hm, heq], hlt, List.mem_cons_of_mem _ hmem, ?_⟩
          intro g hg v hv
          rcases List.mem_cons.mp hg with hg | hg
          · rw [hg] at hv; rw [hv] at hm; cases hm
          · exact hb g hg v hv
      · by_cases hu : u > t0
        · have hstep : latestStep (a0, t0) f = (some f.path, u) := by
            simp [latestStep, hm, hu]
          rcases ih (some f.path) u with ⟨heq, hb⟩ | ⟨p, t, heq, hlt, hmem, hb⟩
          · right
            refine ⟨f.path, u, by simp [List.foldl_cons, hstep, heq], hu, ?_, ?_⟩
            · have hfe : FSFile.mk f.path (some u) = f := by
                cases f with
                | mk fp fm =>
                    simp only at hm
                    rw [hm]
              rw [hfe]
              exact List.mem_cons_self _ _
            · intro g hg v hv
              rcases List.mem_cons.mp hg with hg | hg
              · rw [hg] at hv; rw [hv] at hm
                cases hm; exact le_refl _
              · exact hb g hg v hv
          · right
            refine ⟨p, t, by simp [List.foldl_cons, hstep, heq], lt_trans hu hlt,
              List.mem_cons_of_mem _ hmem, ?_⟩
            intro g hg v hv
            rcases List.mem_cons.mp hg with hg | hg
            · rw [hg] at hv; rw [hv] at hm
              cases hm; exact le_of_lt hlt
            · exact hb g hg v hv
        · have hstep : latestStep (a0, t0) f = (a0, t0) := by
            simp [latestStep, hm]
            omega
          rcases ih a0 t0 with ⟨heq, hb⟩ | ⟨p, t, heq, hlt, hmem, hb⟩
          · left
            refine ⟨by simp [List.foldl_cons, hstep, heq], ?_⟩
            intro g hg v hv
            rcases List.mem_cons.mp hg with hg | hg
            · rw [hg] at hv; rw [hv] at hm
              cases hm; omega
            · exact hb g hg v hv
          · right
            refine ⟨p, t, by simp [List.foldl_cons, hstep, heq], hlt,
              List.mem_cons_of_mem _ hmem, ?_⟩
            intro g hg v hv
            rcases List.mem_cons.mp hg with hg | hg
            · rw [hg] at hv; rw [hv] at hm
              cases hm; omega
            · exact hb g hg v hv

/-- C5, counterexample to the claim as stated: a root-directory access
failure is folded into the same no-file-found result (`None`) as an
empty directory, not reported upward (with `onerror=None`, `os.walk`
swallows the `scandir` error and yields nothing); and a non-empty
readable directory whose only file has modification time 0 also yields
no-file-found, because the fold starts from `latest_time = 0` with a
strict comparison. -/
theorem get_latest_file_counterexample :
    get_latest_file RootDir.inaccessible = get_latest_file (RootDir.ok [])
  ∧ get_latest_file (RootDir.ok [⟨"a", some 0⟩]) = none := by decide

/-- C5, amended: `get_latest_file` returns the path of a walked file
with positive modification time that is at least as recent as every
file whose stat succeeds; it returns `None` when the walk yields
nothing (empty, unreadable or missing root — a root access failure is
folded into this result, not reported upward) and, more generally,
whenever no stattable file has positive modification time; a per-file
stat error only skips that file.  Whenever some stattable file has
positive modification time, a path is returned. -/
theorem get_latest_file_amended (d : RootDir) :
    get_latest_file RootDir.inaccessible = none
  ∧ (∀ p, get_latest_file d = some p →
      ∃ t, 0 < t ∧ FSFile.mk p (some t) ∈ walkFiles d ∧
        ∀ f ∈ walkFiles d, ∀ u, f.mtime = some u → u ≤ t)
  ∧ ((∃ f ∈ walkFiles d, ∃ t, f.mtime = some t ∧ 0 < t) →
      ∃ p, get_latest_file d = some p) := by
  refine ⟨rfl, ?_, ?_⟩
  · intro p hp
    rw [get_latest_file_eq_foldl] at hp
    rcases latestStep_foldl_spec (walkFiles d) none 0 with ⟨heq, _⟩ | ⟨q, t, heq, hlt, hmem, hb⟩
    · rw [heq] at hp; cases hp
    · rw [heq] at hp
      simp only [Option.some.injEq] at hp
      exact ⟨t, hlt, hp ▸ hmem, hb⟩
  · rintro ⟨f, hf, t, hmt, ht⟩
    rw [get_latest_file_eq_foldl]
    rcases latestStep_foldl_spec (walkFiles d) none 0 with ⟨_, hb⟩ | ⟨q, u, heq, _, _, _⟩
    · have := hb f hf t hmt
      omega
    · exact ⟨q, by rw [heq]⟩

/-- Witness for `get_latest_file_amended` at a concrete directory: with
files of times 5 and 3 the returned path "a" carries the maximal
positive time, and the existence half fires. -/
theorem get_latest_file_amended_witness :
    (∃ t, 0 < t ∧
        FSFile.mk "a" (some t) ∈ walkFiles (RootDir.ok [⟨"a", some 5⟩, ⟨"b", some 3⟩]) ∧
        ∀ f ∈ walkFiles (RootDir.ok [⟨"a", some 5⟩, ⟨"b", some 3⟩]),
          ∀ u, f.mtime = some u → u ≤ t)
  ∧ ∃ p, get_latest_file (RootDir.ok [⟨"a", some 5⟩, ⟨"b", some 3⟩]) = some p :=
  ⟨(get_latest_file_amended (RootDir.ok [⟨"a", some 5⟩, ⟨"b", some 3⟩])).2.1 "a" (by decide),
   (get_latest_file_amended (RootDir.ok [⟨"a", some 5⟩, ⟨"b", some 3⟩])).2.2
     ⟨⟨"a", some 5⟩, by decide, 5, rfl, by decide⟩⟩

/-! ### Claims about the extractors -/

/-- C6: a line that is not valid JSON (decode outcome `none`) leaves
every counter child, both block gauges and every jailed-status gauge
child exactly as they were, emits no observation, and — the extractors
being total functions whose exception handling is internal — lets the
tailer's stream continue. -/
theorem malformed_line_is_noop (c : ProposerCounter) (m : BlockMetrics)
    (vm : ValidatorMapping) (g : JailedGauge) :
    parse_log_line c none = (c, [])
  ∧ parse_block_time_line m none = (m, [])
  ∧ parse_consensus_log_line vm g none = (g, []) :=
  ⟨rfl, rfl, rfl⟩

/-- On a line that names the truthy proposer `P`, `parse_log_line`
increments exactly the counter child `P`. -/
theorem parse_log_line_of_names (c : ProposerCounter) (P : JsonVal)
    (l : Option JsonVal) (h : namesProposer P l = true) :
    (parse_log_line c l).1 = fun q => if q = P then c q + 1 else c q := by
  match l with
  | none => cases h
  | some (.null) => cases h
  | some (.bool b) => cases h
  | some (.num n) => cases h
  | some (.str s) => cases h
  | some (.arr xs) => cases h
  | some (.obj fs) =>
      rw [namesProposer] at h
      rcases hab : (objGet fs "abci_block").getD (.obj []) with _ | b | n | s | xs | fs2 <;>
        rw [hab] at h
      · exact Bool.noConfusion h
      · exact Bool.noConfusion h
      · exact Bool.noConfusion h
      · exact Bool.noConfusion h
      · exact Bool.noConfusion h
      · replace h : ((objGet fs2 "proposer").getD .null == P && truthy P) = true := h
        rw [Bool.and_eq_true, beq_iff_eq] at h
        obtain ⟨hfield, htr⟩ := h
        simp only [parse_log_line, hab]
        simp [hfield, htr]

/-- On a line that is not valid JSON, `parse_log_line` keeps the
counter. -/
theorem parse_log_line_none (c : ProposerCounter) :
    (parse_log_line c none).1 = c := rfl

/-- C7: for any sequence of lines in which every line either is a valid
record naming the same truthy proposer identifier `P` or is malformed
(fails JSON decoding), folding the whole sequence through the proposer
extractor increases the counter child `P` by exactly the number of
`P`-naming lines, whatever the interleaving. -/
theorem proposer_counter_increases_by_count (c : ProposerCounter) (P : JsonVal)
    (lines : List (Option JsonVal))
    (h : ∀ l ∈ lines, namesProposer P l = true ∨ l = none) :
    processProposerLines c lines P = c P + lines.countP (namesProposer P) := by
  induction lines generalizing c with
  | nil => simp [processProposerLines]
  | cons l rest ih =>
      have hrest : ∀ l2 ∈ rest, namesProposer P l2 = true ∨ l2 = none :=
        fun l2 hl2 => h l2 (List.mem_cons_of_mem _ hl2)
      have hstep1 : processProposerLines c (l :: rest) =
          processProposerLines (parse_log_line c l).1 rest := rfl
      rcases h l (List.mem_cons_self _ _) with hn | hnone
      · rw [hstep1, parse_log_line_of_names c P l hn, ih _ hrest, List.countP_cons]
        simp [hn]
        omega
      · rw [hnone]
        rw [show processProposerLines c (none :: rest) = processProposerLines c rest from rfl,
          ih _ hrest, List.countP_cons]
        simp [namesProposer]

/-- Witness for `proposer_counter_increases_by_count`: two valid lines
naming `"v1"` interleaved with one malformed line bump the `"v1"` child
from 0 by exactly 2. -/
theorem proposer_counter_increases_by_count_witness :
    processProposerLines (fun _ => 0)
        [some (.obj [("abci_block", .obj [("proposer", .str "v1")])]),
         none,
         some (.obj [("abci_block", .obj [("proposer", .str "v1")])])]
        (JsonVal.str "v1") =
      (fun _ : JsonVal => (0 : Nat)) (JsonVal.str "v1") +
        ([some (.obj [("abci_block", .obj [("proposer", .str "v1")])]),
          none,
          some (.obj [("abci_block", .obj [("proposer", .str "v1")])])] :
          List (Option JsonVal)).countP (namesProposer (.str "v1")) :=
  proposer_counter_increases_by_count (fun _ => 0) (.str "v1") _ (by decide)

/-- C10: the block-time extractor's per-line effect is not atomic.  On
a valid JSON object whose `height` field is present and
integer-convertible but whose `apply_duration` field is present and
fails `float` conversion, the height gauge is set to the new value
before the conversion raises, while the apply-duration gauge keeps its
prior value, and only the height observation is emitted. -/
theorem block_time_partial_update (m : BlockMetrics) (fs : List (String × JsonVal))
    (bh ad : JsonVal) (h : Int)
    (hbh : (objGet fs "height").getD .null = bh) (hbhn : bh ≠ .null)
    (hint : pyInt bh = some h)
    (had : (objGet fs "apply_duration").getD .null = ad) (hadn : ad ≠ .null)
    (hfl : pyFloatOk ad = false) :
    parse_block_time_line m (some (.obj fs)) =
      ({ m with height := some h }, [Obs.blockHeightSet h])
  ∧ (parse_block_time_line m (some (.obj fs))).1.apply_duration = m.apply_duration := by
  have hmain : parse_block_time_line m (some (.obj fs)) =
      ({ m with height := some h }, [Obs.blockHeightSet h]) := by
    simp only [parse_block_time_line, hbh, had]
    rcases bh with _ | b | n | s | xs | gs
    · exact absurd rfl hbhn
    all_goals
      simp only [hint]
      rcases ad with _ | b2 | n2 | s2 | xs2 | gs2
      · exact absurd rfl hadn
      all_goals simp [setApplyDuration, hfl]
  exact ⟨hmain, by rw [hmain]⟩

/-- Witness for `block_time_partial_update`: the line
`{"height": 7, "apply_duration": []}` sets the height gauge to 7 and
leaves the apply-duration gauge untouched. -/
theorem block_time_partial_update_witness :
    parse_block_time_line ⟨some 1, some (.num 2)⟩
        (some (.obj [("height", .num 7), ("apply_duration", .arr [])])) =
      (⟨some 7, some (.num 2)⟩, [Obs.blockHeightSet 7])
  ∧ (parse_block_time_line ⟨some 1, some (.num 2)⟩
        (some (.obj [("height", .num 7), ("apply_duration", .arr [])]))).1.apply_duration =
      (⟨some 1, some (.num 2)⟩ : BlockMetrics).apply_duration :=
  block_time_partial_update ⟨some 1, some (.num 2)⟩
    [("height", .num 7), ("apply_duration", .arr [])] (.num 7) (.arr []) 7
    (by decide) (by decide) (by decide) (by decide) (by decide) (by decide)

/-! ### Claims about the consensus extractor -/

/-- A consensus log line of the shape the extractor navigates:
`data[1][1]` is the status dict carrying `jailed_validators` and
`execution_state.round_to_stakes`. -/
def mkConsensusLine (jailedJson rts : JsonVal) : JsonVal :=
  .arr [.null, .arr [.null,
    .obj [("jailed_validators", jailedJson),
          ("execution_state", .obj [("round_to_stakes", rts)])]]]

/-- The `validator` label the extractor uses for a short address:
the resolved full address on a cache hit, the short address itself on a
miss. -/
def fullLabel (vm : ValidatorMapping) (s : String) : JsonVal :=
  match vmLookup vm s with
  | some r => .str r.full_address
  | none => .str s

/-- The `name` label: the resolved name on a cache hit, `"Unknown"` on a
miss. -/
def nameLabel (vm : ValidatorMapping) (s : String) : JsonVal :=
  match vmLookup vm s with
  | some r => .str r.name
  | none => .str "Unknown"

/-- The value the jailed-status gauge is set to for a short address. -/
def jailedBit (jailed : List JsonVal) (s : String) : Nat :=
  if jailed.contains (.str s) then 1 else 0

/-- Append a string to a deduplicated accumulator if it is new. -/
def insertNew (acc : List String) (s : String) : List String :=
  if acc.contains s then acc else acc ++ [s]

/-- Deduplicating append of a whole list, keeping first-insertion
order. -/
def dedupAppend : List String → List String → List String
  | acc, [] => acc
  | acc, s :: rest => dedupAppend (insertNew acc s) rest

/-- A well-formed `round_to_stakes` value: for each round, a round id
and its `[validator, stake]` entry list with string short addresses. -/
def mkStakesRounds (rounds : List (JsonVal × List (String × JsonVal))) : List JsonVal :=
  rounds.map fun q => .arr [q.1, .arr (q.2.map fun e => .arr [.str e.1, e.2])]

/-- The short addresses of a well-formed `round_to_stakes`, flattened
across rounds in order. -/
def flatShorts (rounds : List (JsonVal × List (String × JsonVal))) : List String :=
  rounds.flatMap fun q => q.2.map (·.1)

/-- The participating set: the flattened short addresses,
deduplicated. -/
def participatingShorts (rounds : List (JsonVal × List (String × JsonVal))) : List String :=
  dedupAppend [] (flatShorts rounds)

theorem str_beq_str (a x : String) :
    (JsonVal.str a == JsonVal.str x) = (a == x) := by
  by_cases h : a = x
  · simp [h]
  · have h2 : JsonVal.str a ≠ JsonVal.str x := by
      intro hc
      cases hc
      exact h rfl
    simp [h, h2]

theorem contains_map_str (acc : List String) (a : String) :
    (acc.map JsonVal.str).contains (JsonVal.str a) = acc.contains a := by
  induction acc with
  | nil => rfl
  | cons x rest ih =>
      simp only [List.map_cons, List.contains_cons, ih, str_beq_str]

theorem addRoundValidators_str (entries : List (String × JsonVal)) :
    ∀ acc : List String,
      addRoundValidators (acc.map JsonVal.str)
          (entries.map fun e => .arr [.str e.1, e.2]) =
        some ((dedupAppend acc (entries.map (·.1))).map JsonVal.str) := by
  induction entries with
  | nil => intro acc; rfl
  | cons e rest ih =>
      intro acc
      rw [List.map_cons, addRoundValidators]
      simp only [pyIndex, List.get?, hashable, if_true]
      rw [contains_map_str]
      rw [List.map_cons, dedupAppend, insertNew]
      by_cases hc : acc.contains e.1
      · rw [if_pos hc, if_pos hc, ih acc]
      · rw [if_neg hc, if_neg hc]
        have hmap : List.map JsonVal.str acc ++ [JsonVal.str e.1] =
            List.map JsonVal.str (acc ++ [e.1]) := by simp
        rw [hmap, ih (acc ++ [e.1])]

theorem dedupAppend_append (a : List String) :
    ∀ (acc : List String) (b : List String),
      dedupAppend (dedupAppend acc a) b = dedupAppend acc (a ++ b) := by
  induction a with
  | nil => intro acc b; rfl
  | cons s rest ih => intro acc b; rw [List.cons_append, dedupAppend, dedupAppend, ih]

theorem buildAllValidators_str (rounds : List (JsonVal × List (String × JsonVal))) :
    ∀ acc : List String,
      buildAllValidators (acc.map JsonVal.str) (mkStakesRounds rounds) =
        some ((dedupAppend acc (flatShorts rounds)).map JsonVal.str) := by
  induction rounds with
  | nil => intro acc; rfl
  | cons q rest ih =>
      intro acc
      rw [mkStakesRounds, List.map_cons, buildAllValidators]
      simp only [pyIndex, List.get?]
      rw [addRoundValidators_str q.2 acc]
      show buildAllValidators
          (List.map JsonVal.str (dedupAppend acc (List.map (fun x => x.1) q.2)))
          (mkStakesRounds rest) =
        some (List.map JsonVal.str (dedupAppend acc (flatShorts (q :: rest))))
      rw [ih, dedupAppend_append,
        show List.map (fun x => x.1) q.2 ++ flatShorts rest = flatShorts (q :: rest) from rfl]

/-- One step of the update loop on a string short address: resolve,
test jailed membership (which cannot raise against a JSON list), set
the gauge child, record the observation. -/
theorem jailedLoop_cons_str (vm : ValidatorMapping) (jailed : List JsonVal)
    (g : JailedGauge) (obs : List Obs) (s : String) (rest : List JsonVal) :
    jailedLoop vm (.arr jailed) g obs (JsonVal.str s :: rest) =
      jailedLoop vm (.arr jailed)
        (setGauge g (fullLabel vm s, nameLabel vm s) (jailedBit jailed s))
        (obs ++ [Obs.jailedSet (fullLabel vm s) (nameLabel vm s) (jailedBit jailed s)])
        rest := by
  rw [jailedLoop]
  rcases hv : vmLookup vm s with _ | r <;>
    simp [hv, pyIn, fullLabel, nameLabel, jailedBit]

/-- The update loop over a list of string short addresses: it emits one
jailed-status observation per address in order, never raises, and
leaves every gauge child whose label pair is not among the updated ones
unchanged. -/
theorem jailedLoop_str_spec (vm : ValidatorMapping) (jailed : List JsonVal)
    (shorts : List String) :
    ∀ (g : JailedGauge) (obs : List Obs),
      (jailedLoop vm (.arr jailed) g obs (shorts.map JsonVal.str)).2 =
        obs ++ shorts.map
          (fun s => Obs.jailedSet (fullLabel vm s) (nameLabel vm s) (jailedBit jailed s))
    ∧ ∀ lbl, lbl ∉ shorts.map (fun s => (fullLabel vm s, nameLabel vm s)) →
        (jailedLoop vm (.arr jailed) g obs (shorts.map JsonVal.str)).1 lbl = g lbl := by
  induction shorts with
  | nil => intro g obs; exact ⟨by simp [jailedLoop], fun lbl _ => rfl⟩
  | cons s rest ih =>
      intro g obs
      rw [List.map_cons, jailedLoop_cons_str]
      obtain ⟨ih2, ih1⟩ := ih (setGauge g (fullLabel vm s, nameLabel vm s) (jailedBit jailed s))
        (obs ++ [Obs.jailedSet (fullLabel vm s) (nameLabel vm s) (jailedBit jailed s)])
      refine ⟨by rw [ih2]; simp, ?_⟩
      intro lbl hlbl
      rw [List.map_cons, List.mem_cons] at hlbl
      push_neg at hlbl
      rw [ih1 lbl hlbl.2, setGauge, if_neg hlbl.1]

/-- C8: when the consensus extractor processes a participating short
address that the resolver cache does not know, it still performs the
jailed-status update, labeling the gauge child and the observation with
the short address itself as `validator` and `"Unknown"` as `name`; the
cache miss raises nothing — the whole line is processed to a normal
result. -/
theorem resolver_fallback (vm : ValidatorMapping) (g : JailedGauge) (s : String)
    (jailed : List JsonVal) (stake : JsonVal) (h : vmLookup vm s = none) :
    parse_consensus_log_line vm g (some (mkConsensusLine (.arr jailed)
        (.arr [.arr [.num 0, .arr [.arr [.str s, stake]]]]))) =
      (setGauge g (.str s, .str "Unknown") (jailedBit jailed s),
       [Obs.jailedSet (.str s) (.str "Unknown") (jailedBit jailed s)]) := by
  have h1 : parse_consensus_log_line vm g (some (mkConsensusLine (.arr jailed)
      (.arr [.arr [.num 0, .arr [.arr [.str s, stake]]]]))) =
      jailedLoop vm (.arr jailed) g [] [.str s] := rfl
  rw [h1, jailedLoop_cons_str]
  rw [jailedLoop]
  congr 1 <;> [skip; rw [List.nil_append]] <;>
    rw [fullLabel, nameLabel, h]

/-- Witness for `resolver_fallback`: an empty cache misses the short
address `"0xab..cd"`, which appears in `jailed_validators`, so its own
gauge child `("0xab..cd", "Unknown")` is set to 1. -/
theorem resolver_fallback_witness :
    parse_consensus_log_line [] (fun _ => none)
        (some (mkConsensusLine (.arr [.str "0xab..cd"])
          (.arr [.arr [.num 0, .arr [.arr [.str "0xab..cd", .num 5]]]]))) =
      (setGauge (fun _ => none) (.str "0xab..cd", .str "Unknown")
          (jailedBit [.str "0xab..cd"] "0xab..cd"),
       [Obs.jailedSet (.str "0xab..cd") (.str "Unknown")
          (jailedBit [.str "0xab..cd"] "0xab..cd")]) :=
  resolver_fallback [] (fun _ => none) "0xab..cd" [.str "0xab..cd"] (.num 5) rfl

/-- C9: on a well-formed consensus line the extractor derives the
participating set by flattening the per-round stake entries and
deduplicating the short addresses (`buildAllValidators`), emits for
every member exactly one jailed-status observation — value 1 when the
address occurs in `jailed_validators`, 0 otherwise — and leaves every
gauge child whose label pair is not among the updated ones exactly as
it was (validators outside the current participating set are never
actively cleared). -/
theorem consensus_jailed_update (vm : ValidatorMapping) (g : JailedGauge)
    (rounds : List (JsonVal × List (String × JsonVal))) (jailed : List JsonVal) :
    buildAllValidators [] (mkStakesRounds rounds) =
      some ((participatingShorts rounds).map JsonVal.str)
  ∧ (parse_consensus_log_line vm g
        (some (mkConsensusLine (.arr jailed) (.arr (mkStakesRounds rounds))))).2 =
      (participatingShorts rounds).map
        (fun s => Obs.jailedSet (fullLabel vm s) (nameLabel vm s) (jailedBit jailed s))
  ∧ ∀ lbl, lbl ∉ (participatingShorts rounds).map
        (fun s => (fullLabel vm s, nameLabel vm s)) →
      (parse_consensus_log_line vm g
          (some (mkConsensusLine (.arr jailed) (.arr (mkStakesRounds rounds))))).1 lbl =
        g lbl := by
  have hbuild : buildAllValidators [] (mkStakesRounds rounds) =
      some ((participatingShorts rounds).map JsonVal.str) :=
    buildAllValidators_str rounds []
  have hred : parse_consensus_log_line vm g
      (some (mkConsensusLine (.arr jailed) (.arr (mkStakesRounds rounds)))) =
      jailedLoop vm (.arr jailed) g [] ((participatingShorts rounds).map JsonVal.str) := by
    rw [show parse_consensus_log_line vm g
        (some (mkConsensusLine (.arr jailed) (.arr (mkStakesRounds rounds)))) =
        (match buildAllValidators [] (mkStakesRounds rounds) with
          | none => (g, [])
          | some avs => jailedLoop vm (.arr jailed) g [] avs) from rfl, hbuild]
  obtain ⟨h2, h1⟩ := jailedLoop_str_spec vm jailed (participatingShorts rounds) g []
  exact ⟨hbuild, by rw [hred, h2, List.nil_append], fun lbl hl => by rw [hred]; exact h1 lbl hl⟩

/-- Witness for `consensus_jailed_update`: two rounds sharing validator
`"v1"`, with `"v2"` jailed; the observations are one per deduplicated
participant, and an untouched label pair keeps its old value. -/
theorem consensus_jailed_update_witness :
    (parse_consensus_log_line [] (fun _ => some 7)
        (some (mkConsensusLine (.arr [.str "v2"])
          (.arr (mkStakesRounds
            [(.num 1, [("v1", .num 10), ("v2", .num 20)]),
             (.num 2, [("v1", .num 10)])]))))).1 (.str "v9", .str "Unknown") =
      some 7 :=
  (consensus_jailed_update [] (fun _ => some 7)
      [(.num 1, [("v1", .num 10), ("v2", .num 20)]), (.num 2, [("v1", .num 10)])]
      [.str "v2"]).2.2 (.str "v9", .str "Unknown") (by decide)

end HLExporter
